import Mathlib

/-!
Verification development for the tag-scanning / pairing / mutation engine of
the repository (src/odt.ts and src/utils.ts), shallowly embedded in Lean.

Modelling conventions:
* JS strings are sequences of code units; every input here is ASCII, so a
  string is embedded as a list of characters (`Str`). Concrete literals are
  written as Lean string literals followed by `.data`.
* A JS object used as a string-keyed record is an insertion-ordered map and
  is embedded as an association list; assignment to an existing key updates
  the value in place (keeping the key position), assignment to a new key
  appends it (`objSet`).
* `NodeAttributes = Record<string, string | undefined>` is embedded as
  `List (Str × Option Str)`; an absent key and a key stored as undefined
  both read back as `none` (`attrGet`), exactly like the JS indexing
  operator, and strict equality on `string | undefined` is equality of
  `Option Str`.
* The two regular expressions of the scanner are embedded as abstract
  syntax trees (`RE`) interpreted by a backtracking matcher (`reMatch`)
  whose result list is in the priority order of a JS regex engine
  (alternation left first, quantifiers greedy, an iteration of a
  quantifier must consume input); `exec` with the global flag is the
  leftmost-match scan `execAll`.
* JS generators are lazy but their underlying data here is immutable, so a
  generator is embedded as the eager list of everything it can yield.
  The one place where generator state is shared (`findNodes` hands one
  `listNodes` generator to both `findNodeStart` and `findNodeEnd`) is
  embedded by the alternating scan `findNodesGo` over the common event
  list: each pull of the open side consumes the shared stream up to and
  including the next open match, each pull of the close side continues
  from there, exactly as the two for-of loops of the source interleave.
* Recursions are fuel-structural (fuel bounded by the input length) so
  that every definition kernel-evaluates on concrete input.
-/

set_option maxRecDepth 100000

namespace Odt

/-- Characters of a JS string (all inputs of interest are ASCII). -/
abbrev Str := List Char

/-- Decides whether the first list is an initial segment of the second. -/
def leadsWith : Str → Str → Bool
  | [], _ => true
  | _ :: _, [] => false
  | p :: ps, c :: cs => p == c && leadsWith ps cs

/-- Decides whether the pattern occurs as a contiguous segment. -/
def containsSeg (pat : Str) : Str → Bool
  | [] => leadsWith pat []
  | s@(_ :: t) => leadsWith pat s || containsSeg pat t

/-- Slice of a list between two absolute offsets, clamped: the characters at
positions a, a+1, ..., b-1. -/
def segment (s : Str) (a b : Nat) : Str := (s.take b).drop a

/-- Embeds the two-argument String.prototype.substring of JS: both indices
are clamped to the length and swapped when out of order. -/
def jsSubstring (s : Str) (a b : Nat) : Str :=
  let a₁ := min a s.length
  let b₁ := min b s.length
  (s.take (max a₁ b₁)).drop (min a₁ b₁)

/-- Embeds the one-argument String.prototype.substring of JS. -/
def jsSubstringFrom (s : Str) (a : Nat) : Str := s.drop (min a s.length)

/-! ## Attribute records -/

/-- Embeds the type NodeAttributes = Record<string, string | undefined> as
an insertion-ordered association list. -/
abbrev NodeAttributes := List (Str × Option Str)

/-- Embeds JS property read a[k]: an absent key and a key holding undefined
both give none. -/
def attrGet (a : NodeAttributes) (k : Str) : Option Str :=
  match a.find? (fun kv => kv.1 == k) with
  | none => none
  | some kv => kv.2

/-- Embeds JS property assignment a[k] = v: an existing key keeps its
position and gets the new value, a new key is appended. -/
def objSet (a : NodeAttributes) (k : Str) (v : Option Str) : NodeAttributes :=
  if a.any (fun kv => kv.1 == k) then
    a.map (fun kv => if kv.1 == k then (k, v) else kv)
  else
    a ++ [(k, v)]

/-- Embeds the JS object spread of two records: every entry of the second
is assigned over the first, in order. -/
def objMerge (a b : NodeAttributes) : NodeAttributes :=
  b.foldl (fun acc kv => objSet acc kv.1 kv.2) a

/-! ## LibreOffice escaper (src/odt.ts LO_ENTITIES, escapeLibreOffice) -/

/-- Embeds the LO_ENTITIES table, in the key order of the source object,
which is also the alternation order of the regex LO_RE built from it.
The single-quote key is written by code point to keep the source ASCII. -/
def LO_ENTITIES : List (Str × Str) :=
  [ (['&'], "&amp;".data),
    (['<'], "&lt;".data),
    (['>'], "&gt;".data),
    (['"'], "&quot;".data),
    ([Char.ofNat 39], "&apos;".data),
    (['\t'], "<text:tab />".data),
    ([' ', ' '], "<text:tab />".data) ]

/-- One pass of String.prototype.replace with the global alternation regex
LO_RE: scan left to right; at each position the first alternative (in table
order) that matches is replaced and the scan resumes after it, otherwise
the character is copied. Fuel is the remaining length. -/
def escGo : Nat → Str → Str
  | 0, s => s
  | fuel + 1, s =>
    match LO_ENTITIES.find? (fun e => leadsWith e.1 s) with
    | some e => e.2 ++ escGo fuel (s.drop e.1.length)
    | none =>
      match s with
      | [] => []
      | c :: t => c :: escGo fuel t

/-- Embeds escapeLibreOffice from src/odt.ts. -/
def escapeLibreOffice (s : Str) : Str := escGo s.length s

/-! ## Regular-expression engine

The scanner of the source is driven by two JS regexes; they are embedded as
syntax trees interpreted with exact JS backtracking priority. -/

/-- Capture list: (group number, start offset, end offset), latest write
first. -/
abbrev Caps := List (Nat × Nat × Nat)

/-- Records a capture, overwriting an earlier span of the same group. -/
def capSet (caps : Caps) (i a b : Nat) : Caps :=
  (i, a, b) :: caps.filter (fun c => c.1 ≠ i)

/-- Reads a capture span. -/
def capGet (caps : Caps) (i : Nat) : Option (Nat × Nat) :=
  (caps.find? (fun c => c.1 == i)).map (fun c => (c.2.1, c.2.2))

/-- Regex syntax: literal, character class, sequence, alternation, empty,
Kleene star and numbered capture group. A plus is r then r-star, an
optional is an alternation with the empty regex. -/
inductive RE where
  | lit : Char → RE
  | cls : (Char → Bool) → RE
  | seq : RE → RE → RE
  | alt : RE → RE → RE
  | eps : RE
  | star : RE → RE
  | grp : Nat → RE → RE

/-- Matcher state: remaining input, absolute position, captures. -/
abbrev MState := Str × Nat × Caps

/-- Matches one regex layer; `lower` continues a star with one less fuel.
The result list is in JS priority order: for an alternation the left branch
first, for a star more iterations first and an iteration must consume input
(a JS quantifier stops on an empty iteration), with the zero-iteration exit
last. -/
def reMatchGo (lower : RE → Str → Nat → Caps → List MState) :
    RE → Str → Nat → Caps → List MState
  | .lit c, s, pos, caps =>
    match s with
    | c₁ :: t => if c₁ == c then [(t, pos + 1, caps)] else []
    | [] => []
  | .cls p, s, pos, caps =>
    match s with
    | c₁ :: t => if p c₁ then [(t, pos + 1, caps)] else []
    | [] => []
  | .eps, s, pos, caps => [(s, pos, caps)]
  | .seq a b, s, pos, caps =>
    (reMatchGo lower a s pos caps).flatMap
      (fun st => reMatchGo lower b st.1 st.2.1 st.2.2)
  | .alt a b, s, pos, caps =>
    reMatchGo lower a s pos caps ++ reMatchGo lower b s pos caps
  | .grp i r, s, pos, caps =>
    (reMatchGo lower r s pos caps).map
      (fun st => (st.1, st.2.1, capSet st.2.2 i pos st.2.1))
  | .star r, s, pos, caps =>
    ((reMatchGo lower r s pos caps).filter (fun st => pos < st.2.1)).flatMap
      (fun st => lower (.star r) st.1 st.2.1 st.2.2)
    ++ [(s, pos, caps)]

/-- Backtracking matcher; the fuel bounds the number of star iterations and
any fuel at least the input length is enough, since every counted iteration
consumes input. -/
def reMatch : Nat → RE → Str → Nat → Caps → List MState
  | 0, re, s, pos, caps =>
    reMatchGo (fun _ s₁ p₁ c₁ => [(s₁, p₁, c₁)]) re s pos caps
  | fuel + 1, re, s, pos, caps =>
    reMatchGo (reMatch fuel) re s pos caps

/-- One match of `exec`: offsets of the whole match and the captures. -/
structure REMatch where
  index : Nat
  stop : Nat
  caps : Caps
deriving DecidableEq

/-- Embeds repeated exec with the global flag (multiMatchs of src/utils.ts):
scan for the leftmost match, emit it, resume at its end. The regexes of the
source never match the empty string; an empty match steps one character so
the scan always terminates. -/
def execGo (re : RE) : Nat → Str → Nat → List REMatch
  | 0, _, _ => []
  | fuel + 1, s, pos =>
    match reMatch (s.length + 1) re s pos [] with
    | st :: _ =>
      if pos < st.2.1 then
        ⟨pos, st.2.1, st.2.2⟩ :: execGo re fuel st.1 st.2.1
      else
        match s with
        | [] => []
        | _ :: t => execGo re fuel t (pos + 1)
    | [] =>
      match s with
      | [] => []
      | _ :: t => execGo re fuel t (pos + 1)

/-- All matches of the regex over the string, leftmost first. -/
def execAll (re : RE) (s : Str) : List REMatch := execGo re (s.length + 1) s 0

/-- Plus quantifier: one occurrence then a star. -/
def rePlus (r : RE) : RE := .seq r (.star r)

/-- Optional quantifier: the regex or nothing, regex first. -/
def reOpt (r : RE) : RE := .alt r .eps

/-- Embeds the JS class \w: ASCII letters, digits and underscore. -/
def isWordChar (c : Char) : Bool :=
  decide (65 ≤ c.toNat ∧ c.toNat ≤ 90) || decide (97 ≤ c.toNat ∧ c.toNat ≤ 122)
  || decide (48 ≤ c.toNat ∧ c.toNat ≤ 57) || c == '_'

/-- Embeds the class [\w-]. -/
def isWordOrHyphen (c : Char) : Bool := isWordChar c || c == '-'

/-- Embeds the JS class \s (whitespace, including the Unicode spaces JS
puts in this class). -/
def isWs (c : Char) : Bool :=
  ([0x9, 0xA, 0xB, 0xC, 0xD, 0x20, 0xA0, 0x1680,
    0x2000, 0x2001, 0x2002, 0x2003, 0x2004, 0x2005, 0x2006, 0x2007,
    0x2008, 0x2009, 0x200A, 0x2028, 0x2029, 0x202F, 0x205F, 0x3000,
    0xFEFF] : List Nat).contains c.toNat

/-- Embeds the class [!-~]: printable ASCII without the space. -/
def isPrintable (c : Char) : Bool := decide (0x21 ≤ c.toNat ∧ c.toNat ≤ 0x7E)

/-- Embeds the class [ -!#-;=?-~]: printable ASCII without the double
quote, the less-than and the greater-than sign. -/
def isAttrValueChar (c : Char) : Bool :=
  decide (0x20 ≤ c.toNat ∧ c.toNat ≤ 0x21) || decide (0x23 ≤ c.toNat ∧ c.toNat ≤ 0x3B)
  || c.toNat == 0x3D || decide (0x3F ≤ c.toNat ∧ c.toNat ≤ 0x7E)

/-- Embeds the tag regex of listNodes, written
<(\/)?(\w+:[\w-]+)\s*([!-~]+="[ -!#-;=?-~]+"\s*)*(\/)?> with groups
1 = leading slash, 2 = element name, 3 = attribute assignment (unused by
the source), 4 = trailing slash. -/
def reNode : RE :=
  .seq (.lit '<')
  (.seq (reOpt (.grp 1 (.lit '/')))
  (.seq (.grp 2 (.seq (rePlus (.cls isWordChar))
                (.seq (.lit ':') (rePlus (.cls isWordOrHyphen)))))
  (.seq (.star (.cls isWs))
  (.seq (.star (.grp 3 (.seq (rePlus (.cls isPrintable))
                       (.seq (.lit '=')
                       (.seq (.lit '"')
                       (.seq (rePlus (.cls isAttrValueChar))
                       (.seq (.lit '"') (.star (.cls isWs)))))))))
  (.seq (reOpt (.grp 4 (.lit '/'))) (.lit '>'))))))

/-- Embeds the attribute regex of listAttributes, written
([!-~]+)="([ -!#-;=?-~]+)". -/
def reAttr : RE :=
  .seq (.grp 1 (rePlus (.cls isPrintable)))
  (.seq (.lit '=')
  (.seq (.lit '"')
  (.seq (.grp 2 (rePlus (.cls isAttrValueChar))) (.lit '"'))))

/-! ## Tag scanner (src/odt.ts listAttributes, listNodes) -/

/-- Embeds listAttributes: every match of the attribute regex over the raw
tag text is assigned into the record, later keys overwriting earlier
ones. -/
def listAttributes (str : Str) : NodeAttributes :=
  (execAll reAttr str).foldl
    (fun attributes m =>
      let key := match capGet m.caps 1 with
        | some ab => segment str ab.1 ab.2
        | none => []
      let value := match capGet m.caps 2 with
        | some ab => segment str ab.1 ab.2
        | none => []
      objSet attributes key (some value))
    []

/-- Embeds the interface RawNode; the source field named end is called
isEnd here because end is a Lean keyword. -/
structure RawNode where
  isEnd : Bool
  node : Str
  attributes : NodeAttributes
  index : Nat
  lastIndex : Nat
deriving DecidableEq

/-- Embeds listNodes: every tag-regex match of the buffer from the start
offset on becomes a raw event; a leading or a trailing slash flags a close
event, offsets are made absolute by adding the start offset. -/
def listNodes (xml : Str) (start : Nat) : List RawNode :=
  let sub := xml.drop start
  (execAll reNode sub).map fun m =>
    let all := segment sub m.index m.stop
    let node := match capGet m.caps 2 with
      | some ab => segment sub ab.1 ab.2
      | none => []
    let index := start + m.index
    { isEnd := (capGet m.caps 1).isSome || (capGet m.caps 4).isSome,
      node := node,
      attributes := listAttributes all,
      index := index,
      lastIndex := index + all.length }

/-! ## Node matcher (src/odt.ts findNodes and helpers) -/

/-- Embeds the interface FindNodesOptions. -/
structure FindNodesOptions where
  node : Str
  attributes : Option NodeAttributes := none
  start : Option Nat := none
deriving DecidableEq

/-- Embeds the interface Node. -/
structure Node where
  node : Str
  attributes : NodeAttributes
  index : Nat
  endIndex : Nat
  inner : Str
deriving DecidableEq

/-- Embeds computeNodeStart: with no filter everything matches, otherwise
every filter entry must compare strictly equal to the attribute read from
the node (an absent attribute reads as undefined). -/
def computeNodeStart (attributes : Option NodeAttributes) (a : NodeAttributes) : Bool :=
  match attributes with
  | none => true
  | some f => f.all (fun kv => attrGet a kv.1 == kv.2)

/-- Loop condition of the findNodeStart generator. -/
def isStartMatch (opts : FindNodesOptions) (m : RawNode) : Bool :=
  !m.isEnd && m.node == opts.node && computeNodeStart opts.attributes m.attributes

/-- Loop condition of the findNodeEnd generator. -/
def isEndMatch (opts : FindNodesOptions) (m : RawNode) : Bool :=
  m.isEnd && m.node == opts.node

/-- Embeds findNodeStart run to exhaustion on its own event stream: the
open events whose name matches and whose attributes pass the filter, in
order. -/
def findNodeStart (nodes : List RawNode) (opts : FindNodesOptions) : List RawNode :=
  nodes.filter (isStartMatch opts)

/-- Embeds findNodeEnd run to exhaustion on its own event stream: the
close events of the name, whatever their attributes, in order. -/
def findNodeEnd (nodes : List RawNode) (opts : FindNodesOptions) : List RawNode :=
  nodes.filter (isEndMatch opts)

/-- First element satisfying the condition together with everything after
it; models one pull of a filtering generator over a shared iterator, which
consumes the stream up to and including the element it yields. -/
def seek (p : RawNode → Bool) : List RawNode → Option (RawNode × List RawNode)
  | [] => none
  | e :: t => if p e then some (e, t) else seek p t

/-- The yielded node of one loop turn of findNodes: fields of the open
event, endIndex from the close event, inner the substring between the two
offsets. -/
def mkNode (xml : Str) (startValue endValue : RawNode) : Node :=
  { node := startValue.node,
    attributes := startValue.attributes,
    index := startValue.index,
    endIndex := endValue.lastIndex,
    inner := jsSubstring xml startValue.index endValue.lastIndex }

/-- Embeds the loop of findNodes. The source hands ONE listNodes generator
to both findNodeStart and findNodeEnd, so the two filters pull from a
shared stream: each turn seeks the next open match, then seeks the next
close match strictly after it, and stops as soon as either seek exhausts
the stream. Fuel is bounded by the event count. -/
def findNodesGo (xml : Str) (opts : FindNodesOptions) : Nat → List RawNode → List Node
  | 0, _ => []
  | fuel + 1, evs =>
    match seek (isStartMatch opts) evs with
    | none => []
    | some (startValue, rest) =>
      match seek (isEndMatch opts) rest with
      | none => []
      | some (endValue, rest₂) =>
        mkNode xml startValue endValue :: findNodesGo xml opts fuel rest₂

/-- Embeds findNodes. -/
def findNodes (xml : Str) (opts : FindNodesOptions) : List Node :=
  let evs := listNodes xml (opts.start.getD 0)
  findNodesGo xml opts (evs.length + 1) evs

/-- Embeds findFirstNode. -/
def findFirstNode (xml : Str) (opts : FindNodesOptions) : Option Node :=
  (findNodes xml opts).head?

/-- Embeds findLastNode. -/
def findLastNode (xml : Str) (opts : FindNodesOptions) : Option Node :=
  (findNodes xml opts).getLast?

/-! ## Document wrapper (src/odt.ts OpenDocumentText) -/

/-- Embeds OpenDocumentTextJson. -/
structure OpenDocumentTextJson where
  odt : Str
  content : Str
deriving DecidableEq

/-- Embeds the state of an OpenDocumentText instance (the two private
fields). The archive I/O methods fromZip and save are external
collaborators and are not modelled. -/
structure OpenDocumentText where
  odt : Str
  content : Str
deriving DecidableEq

/-- Embeds the constructor. -/
def OpenDocumentText.ofJson (j : OpenDocumentTextJson) : OpenDocumentText :=
  { odt := j.odt, content := j.content }

/-- Embeds toJson. -/
def OpenDocumentText.toJson (d : OpenDocumentText) : OpenDocumentTextJson :=
  { odt := d.odt, content := d.content }

/-- Embeds clone. -/
def OpenDocumentText.clone (d : OpenDocumentText) : OpenDocumentText :=
  OpenDocumentText.ofJson d.toJson

/-- Embeds the private method named unsafe in the source: the stored buffer
becomes substring(0, index) + inner + substring(endIndex). -/
def OpenDocumentText.replaceSpan (d : OpenDocumentText) (index endIndex : Nat)
    (inner : Str) : OpenDocumentText :=
  { d with content := jsSubstring d.content 0 index ++ inner
      ++ jsSubstringFrom d.content endIndex }

/-- Replacement markup of the variable-set loop of injectVar; the value is
interpolated verbatim by the source. -/
def varSetReplacement (name value : Str) : Str :=
  "<text:variable-set text:name=\"".data ++ name
    ++ "\" office:value-type=\"string\">".data ++ value
    ++ "</text:variable-set>".data

/-- Replacement markup of the variable-get loop of injectVar. -/
def varGetReplacement (name value : Str) : Str :=
  "<text:variable-get text:name=\"".data ++ name ++ "\">".data ++ value
    ++ "</text:variable-get>".data

/-- Embeds injectVar: each loop lists its matches over a snapshot of the
buffer taken when the loop starts (the generator captures the string value)
and splices every match, at its snapshot offsets, into the evolving
buffer. -/
def OpenDocumentText.injectVar (d : OpenDocumentText) (name value : Str) :
    OpenDocumentText :=
  let attributes : NodeAttributes := [("text:name".data, some name)]
  let d₁ := (findNodes d.content
      { node := "text:variable-set".data, attributes := some attributes }).foldl
    (fun acc n => acc.replaceSpan n.index n.endIndex (varSetReplacement name value)) d
  (findNodes d₁.content
      { node := "text:variable-get".data, attributes := some attributes }).foldl
    (fun acc n => acc.replaceSpan n.index n.endIndex (varGetReplacement name value)) d₁

/-- Embeds innerXml. A missing first node logs a warning (an external
effect) and leaves the state untouched; with a last-node locator the search
restarts at the end offset of the first node and a failed search degrades
the span to the first node alone. -/
def OpenDocumentText.innerXml (d : OpenDocumentText) (firstNode : FindNodesOptions)
    (lastNode : Option FindNodesOptions) (inner : Str) : OpenDocumentText :=
  match findFirstNode d.content firstNode with
  | none => d
  | some fn =>
    match lastNode with
    | none => d.replaceSpan fn.index fn.endIndex inner
    | some lo =>
      let ln := findLastNode d.content { lo with start := some fn.endIndex }
      d.replaceSpan fn.index
        (match ln with | none => fn.endIndex | some l => l.endIndex) inner

/-! ## Column range expander (src/odt.ts calcColumns, src/utils.ts rangeChar) -/

/-- Embeds String.fromCharCode on one code. -/
def stringFactory (char : Nat) : Str := [Char.ofNat char]

/-- Embeds rangeChar of src/utils.ts: the strings of the codes from start
to the end code inclusive, empty when start exceeds end. -/
def rangeChar (start stop : Nat) : List Str :=
  (List.range' start (stop + 1 - start)).map stringFactory

/-- Loop state of calcColumns. The JS array is used as a stack (push and
pop at the tail), embedded with the most recent element first; the one
array-order traversal of the source therefore reverses the list. -/
structure CalcSt where
  result : List Str
  hyphen : Bool
  group : List Nat
deriving DecidableEq

/-- One iteration of the calcColumns loop over one char code. An uppercase
letter is pushed; if that makes the group at least two long while a hyphen
is pending, the two most recent codes are popped as start and end, the
codes pushed before them are emitted literally and the inclusive range
follows; after any letter the hyphen mark is cleared. A hyphen sets the
mark; any other character is ignored. -/
def calcStep (st : CalcSt) (char : Nat) : CalcSt :=
  if 65 ≤ char ∧ char ≤ 90 then
    match st.hyphen, char :: st.group with
    | true, e :: s :: rest =>
      { result := st.result ++ rest.reverse.map stringFactory ++ rangeChar s e,
        hyphen := false, group := [] }
    | _, g => { result := st.result, hyphen := false, group := g }
  else if char = 45 then { st with hyphen := true }
  else st

/-- Embeds calcColumns: a buffer of length one is returned as is, otherwise
the loop runs over the char codes and whatever is left in the group is
emitted literally. -/
def calcColumns (columnDef : Str) : List Str :=
  if columnDef.length = 1 then [columnDef]
  else
    let fin := columnDef.foldl (fun st c => calcStep st c.toNat) ⟨[], false, []⟩
    fin.result ++ fin.group.reverse.map stringFactory

/-! ## Node factory (src/odt.ts NodeFactory) -/

/-- Embeds CreateNodeOptions (the element kinds are plain names here; the
closed NodeType union is a TypeScript-level restriction). -/
structure CreateNodeOptions where
  node : Str
  attributes : NodeAttributes
  content : Str
  children : List Str
deriving DecidableEq

/-- Embeds the Partial CreateNodeOptions override object of newNode: an
absent field keeps the template value. -/
structure NewNodeOverrides where
  node : Option Str := none
  attributes : Option NodeAttributes := none
  content : Option Str := none
  children : Option (List Str) := none
deriving DecidableEq

/-- Argument of newNode: nothing, a bare string (shorthand for content), or
an override object. -/
inductive NewNodeArg where
  | noArg : NewNodeArg
  | text : Str → NewNodeArg
  | overrides : NewNodeOverrides → NewNodeArg
deriving DecidableEq

/-- Option-merge step of newNode: the string shorthand replaces the
content; an override object is spread over the template with the attribute
records spread key-wise. -/
def mergeOptions (f : CreateNodeOptions) (arg : NewNodeArg) : CreateNodeOptions :=
  match arg with
  | .text s => { f with content := s }
  | .noArg => { f with attributes := objMerge f.attributes [] }
  | .overrides p =>
    { node := p.node.getD f.node,
      content := p.content.getD f.content,
      children := p.children.getD f.children,
      attributes := objMerge f.attributes (p.attributes.getD []) }

/-- Serialized attribute run of newNode: entries whose value is undefined
are dropped, the rest are rendered key="value" in record order and joined
by single spaces. -/
def attrRun (attributes : NodeAttributes) : Str :=
  List.intercalate " ".data
    ((attributes.filter (fun kv => kv.2 ≠ none)).map
      (fun kv => kv.1 ++ ('=' :: '"' :: kv.2.getD []) ++ ['"']))

/-- Serialization body of newNode after the option merge. -/
def serializeNode (co : CreateNodeOptions) : Str :=
  let attr := attrRun co.attributes
  let result := '<' :: co.node
  let result := if attr.length > 0 then result ++ (' ' :: attr) else result
  if co.content.length = 0 ∧ co.children.length = 0 then
    result ++ "/>".data
  else
    result ++ ['>'] ++ escapeLibreOffice co.content ++ co.children.flatten
      ++ "</".data ++ co.node ++ ['>']

/-- Embeds NodeFactory.prototype.newNode applied to a factory whose options
record is the first argument. -/
def newNode (f : CreateNodeOptions) (arg : NewNodeArg) : Str :=
  serializeNode (mergeOptions f arg)

/-! ## Specification-side definitions

The following definitions are written from the words of the specification
(not from the source) and exist only to be compared with the embedded
code. -/

/-- Alternation shape of a boolean sequence: open, close, open, close, ...
with equal counts. Used to state which buffers the specification calls
well-formed single-level markup for a queried name: the name-filtered tag
events alternate, beginning with an open event and ending with a close
event. -/
def isAlt : List Bool → Bool
  | [] => true
  | false :: true :: t => isAlt t
  | _ => false

/-- Specification 4.7, one scan step: letters accumulate into the pending
group; a letter arriving while the pending-range mark is set and at least
one letter is already accumulated pops the two most recently accumulated
letters as a start, end pair, emits every letter accumulated before them
literally and then the inclusive character-code range; the mark resets
after each letter; a hyphen sets the mark. The specification is silent on
other characters; they are ignored here, with the mark kept. The group
keeps its most recent letter first. -/
def machineStep : (List Str × Bool × List Char) → Char → (List Str × Bool × List Char) :=
  fun st c =>
    if 'A' ≤ c ∧ c ≤ 'Z' then
      match st.2.1, c :: st.2.2 with
      | true, e :: s :: older =>
        (st.1 ++ older.reverse.map (fun a => [a]) ++ rangeChar s.toNat e.toNat,
         false, [])
      | _, g => (st.1, false, g)
    else if c = '-' then (st.1, true, st.2.2)
    else st

/-- Specification 4.7, the whole scan: run the steps, then emit whatever
letters remain in the group literally. -/
def columnsMachine (s : Str) : List Str :=
  let fin := s.foldl machineStep ([], false, [])
  fin.1 ++ fin.2.2.reverse.map (fun a => [a])

/-- The claim as worded: a bare single letter denotes itself; otherwise the
specification state machine runs. -/
def columnsSpecClaim (s : Str) : List Str :=
  match s with
  | [c] => if 'A' ≤ c ∧ c ≤ 'Z' then [[c]] else columnsMachine s
  | _ => columnsMachine s

/-- The amended reading: every length-one input denotes itself, letter or
not; otherwise the specification state machine runs. -/
def columnsSpecAmended (s : Str) : List Str :=
  match s with
  | [c] => [[c]]
  | _ => columnsMachine s

/-! ## Helper lemmas -/

theorem seek_eq_none {p : RawNode → Bool} :
    ∀ {l : List RawNode}, seek p l = none ↔ ∀ x ∈ l, p x = false := by
  intro l
  induction l with
  | nil => simp [seek]
  | cons e t ih =>
    cases hpe : p e with
    | true => simp [seek, hpe]
    | false => simp [seek, hpe, ih]

theorem seek_eq_some {p : RawNode → Bool} :
    ∀ {l : List RawNode} {x r}, seek p l = some (x, r) →
      p x = true ∧ ∃ pre, l = pre ++ x :: r ∧ ∀ y ∈ pre, p y = false := by
  intro l
  induction l with
  | nil => intro x r h; simp [seek] at h
  | cons e t ih =>
    intro x r h
    cases hpe : p e with
    | true =>
      simp [seek, hpe] at h
      obtain ⟨rfl, rfl⟩ := h
      exact ⟨hpe, [], rfl, by simp⟩
    | false =>
      simp [seek, hpe] at h
      obtain ⟨hx, pre, rfl, hpre⟩ := ih h
      exact ⟨hx, e :: pre, rfl, by
        intro y hy
        rcases List.mem_cons.mp hy with rfl | hy₂
        · exact hpe
        · exact hpre y hy₂⟩

theorem seek_append {p : RawNode → Bool} :
    ∀ (pre : List RawNode) {x : RawNode} {r : List RawNode},
      (∀ y ∈ pre, p y = false) → p x = true → seek p (pre ++ x :: r) = some (x, r) := by
  intro pre
  induction pre with
  | nil => intro x r _ hx; simp [seek, hx]
  | cons e t ih =>
    intro x r hpre hx
    have he : p e = false := hpre e (by simp)
    simp only [List.cons_append, seek, he]
    simp only [Bool.false_eq_true, if_false]
    exact ih (fun y hy => hpre y (by simp [hy])) hx

theorem filter_split {α : Type} {q : α → Bool} :
    ∀ {l : List α} {c : α} {rest : List α}, l.filter q = c :: rest →
      ∃ pre suf, l = pre ++ c :: suf ∧ (∀ y ∈ pre, q y = false)
        ∧ q c = true ∧ rest = suf.filter q := by
  intro l
  induction l with
  | nil => intro c rest h; simp at h
  | cons e t ih =>
    intro c rest h
    cases hqe : q e with
    | true =>
      rw [List.filter_cons, if_pos hqe] at h
      injection h with h₁ h₂
      subst h₁
      subst h₂
      exact ⟨[], t, rfl, by simp, hqe, rfl⟩
    | false =>
      rw [List.filter_cons, if_neg (by simp [hqe])] at h
      obtain ⟨pre, suf, rfl, hpre, hc, hrest⟩ := ih h
      exact ⟨e :: pre, suf, rfl, by
        intro y hy
        rcases List.mem_cons.mp hy with rfl | hy₂
        · exact hqe
        · exact hpre y hy₂, hc, hrest⟩

theorem isAlt_cons {b : Bool} {l : List Bool} (h : isAlt (b :: l) = true) :
    b = false ∧ ∃ t, l = true :: t ∧ isAlt t = true := by
  cases b with
  | true => simp [isAlt] at h
  | false =>
    cases l with
    | nil => simp [isAlt] at h
    | cons b₂ t =>
      cases b₂ with
      | true => exact ⟨rfl, t, rfl, h⟩
      | false => simp [isAlt] at h

/-! ## Claims -/

/-- C1: the code at the failing input of the claim. The claim asks that
every rewritten declaration contain the value escaped by the LibreOffice
escaper; the source interpolates the value verbatim, so injecting the
value consisting of one ampersand leaves a bare ampersand in the stored
buffer and the escaped form appears nowhere. -/
theorem c1_injectVar_unescaped :
    (OpenDocumentText.injectVar
        ⟨"file.odt".data, "<text:variable-set text:name=\"N\">x</text:variable-set>".data⟩
        "N".data "&".data).content
      = "<text:variable-set text:name=\"N\" office:value-type=\"string\">&</text:variable-set>".data
    ∧ escapeLibreOffice "&".data = "&amp;".data
    ∧ containsSeg (escapeLibreOffice "&".data)
        ((OpenDocumentText.injectVar
          ⟨"file.odt".data, "<text:variable-set text:name=\"N\">x</text:variable-set>".data⟩
          "N".data "&".data).content) = false := by
  refine ⟨by decide, by decide, by decide⟩

/-- C2 counterexample: the filter whose single entry holds an undefined
value matches the node that has no attributes at all, although the claim
says a node lacking a filtered attribute never matches. -/
theorem c2_counterexample :
    computeNodeStart (some [("text:name".data, (none : Option Str))]) ([] : NodeAttributes) = true
    ∧ attrGet ([] : NodeAttributes) "text:name".data = none := by
  exact ⟨by decide, by decide⟩

/-- C2 amended: a node matches exactly when every filter entry compares
strictly equal to the attribute read from the node, a missing attribute
reading as undefined; hence a string-valued entry requires the attribute
present with that exact value, while an undefined-valued entry matches
exactly the nodes lacking the attribute. -/
theorem c2_filter_semantics :
    (∀ a : NodeAttributes, computeNodeStart none a = true)
    ∧ (∀ (f : NodeAttributes) (a : NodeAttributes),
        computeNodeStart (some f) a = true ↔ ∀ kv ∈ f, attrGet a kv.1 = kv.2)
    ∧ (∀ (k : Str) (x : Str) (a : NodeAttributes),
        computeNodeStart (some [(k, some x)]) a = true ↔ attrGet a k = some x)
    ∧ (∀ (k : Str) (a : NodeAttributes),
        computeNodeStart (some [(k, none)]) a = true ↔ attrGet a k = none) := by
  refine ⟨fun a => rfl, fun f a => ?_, fun k x a => ?_, fun k a => ?_⟩
  · simp [computeNodeStart, List.all_eq_true]
  · simp [computeNodeStart, List.all_eq_true]
  · simp [computeNodeStart, List.all_eq_true]

/-- C4 counterexample: a self-closing tag of the queried name is flagged a
close event by the scanner, so it lands in the close sub-sequence and not
in the open sub-sequence, although the claim places self-closing events on
the open side. -/
theorem c4_counterexample :
    (listNodes "<text:p/>".data 0).map (fun m => (m.isEnd, m.node))
      = [(true, "text:p".data)]
    ∧ findNodeStart (listNodes "<text:p/>".data 0) { node := "text:p".data } = []
    ∧ findNodeEnd (listNodes "<text:p/>".data 0) { node := "text:p".data }
        = listNodes "<text:p/>".data 0 := by
  exact ⟨by decide, by decide, by decide⟩

/-- C4 amended: the open sub-sequence holds exactly the non-close events of
the queried name whose attributes pass the filter (self-closing events are
flagged close and therefore excluded), the close sub-sequence holds
exactly the close events of the name whatever their attributes, both in
stream order. -/
theorem c4_subsequences :
    (∀ (nodes : List RawNode) (opts : FindNodesOptions) (m : RawNode),
        m ∈ findNodeStart nodes opts
          ↔ m ∈ nodes ∧ m.isEnd = false ∧ m.node = opts.node
            ∧ computeNodeStart opts.attributes m.attributes = true)
    ∧ (∀ (nodes : List RawNode) (opts : FindNodesOptions) (m : RawNode),
        m ∈ findNodeEnd nodes opts ↔ m ∈ nodes ∧ m.isEnd = true ∧ m.node = opts.node)
    ∧ (∀ (nodes : List RawNode) (opts : FindNodesOptions),
        (findNodeStart nodes opts).Sublist nodes ∧ (findNodeEnd nodes opts).Sublist nodes)
    ∧ (listNodes "<text:p/>".data 0).map (fun m => m.isEnd) = [true] := by
  refine ⟨fun nodes opts m => ?_, fun nodes opts m => ?_,
    fun nodes opts => ⟨List.filter_sublist nodes, List.filter_sublist nodes⟩, by decide⟩
  · simp [findNodeStart, List.mem_filter, isStartMatch, and_assoc]
  · simp [findNodeEnd, List.mem_filter, isEndMatch, and_assoc]

theorem findNodesGo_cons {xml : Str} {opts : FindNodesOptions} {fuel : Nat}
    {evs r₁ r₂ : List RawNode} {o c : RawNode}
    (h₁ : seek (isStartMatch opts) evs = some (o, r₁))
    (h₂ : seek (isEndMatch opts) r₁ = some (c, r₂)) :
    findNodesGo xml opts (fuel + 1) evs
      = mkNode xml o c :: findNodesGo xml opts fuel r₂ := by
  simp only [findNodesGo, h₁, h₂]

theorem findNodesGo_nil {xml : Str} {opts : FindNodesOptions} {fuel : Nat}
    {evs : List RawNode} (h₁ : seek (isStartMatch opts) evs = none) :
    findNodesGo xml opts (fuel + 1) evs = [] := by
  simp only [findNodesGo, h₁]

/-- Shape of the open-side condition when no attribute filter is given. -/
theorem isStartMatch_no_filter (n : Str) (m : RawNode) :
    isStartMatch { node := n } m = (!m.isEnd && m.node == n) := by
  simp [isStartMatch, computeNodeStart, Bool.and_true]

/-- Core of C3: when the name-filtered events of the stream alternate
open, close, open, close, the interleaved shared-stream scan of findNodes
coincides with the positional pairing of the k-th open match with the k-th
close match. -/
theorem findNodesGo_eq_zipWith (xml : Str) (n : Str) :
    ∀ (fuel : Nat) (evs : List RawNode), evs.length < fuel →
      isAlt ((evs.filter (fun m => m.node == n)).map (fun m => m.isEnd)) = true →
      findNodesGo xml { node := n } fuel evs
        = List.zipWith (mkNode xml) (evs.filter (isStartMatch { node := n }))
            (evs.filter (isEndMatch { node := n })) := by
  intro fuel
  induction fuel with
  | zero => intro evs h _; omega
  | succ fuel ih =>
    intro evs hlen halt
    cases hseek : seek (isStartMatch { node := n }) evs with
    | none =>
      have hnil : evs.filter (isStartMatch { node := n }) = [] :=
        List.filter_eq_nil_iff.mpr (fun x hx => by simp [seek_eq_none.mp hseek x hx])
      rw [findNodesGo_nil hseek, hnil, List.zipWith_nil_left]
    | some pr =>
      obtain ⟨o, r₁⟩ := pr
      obtain ⟨hpo, pre, rfl, hpre⟩ := seek_eq_some hseek
      rw [isStartMatch_no_filter] at hpo
      simp only [Bool.and_eq_true, Bool.not_eq_true'] at hpo
      obtain ⟨ho_end, ho_node⟩ := hpo
      -- the events seen before the open match carry other names
      have hfp : pre.filter (fun m => m.node == n) = [] := by
        cases hfp₀ : pre.filter (fun m => m.node == n) with
        | nil => rfl
        | cons y ys =>
          exfalso
          have hy_mem_f : y ∈ pre.filter (fun m => m.node == n) := by
            rw [hfp₀]; exact List.mem_cons_self y ys
          have hy_mem : y ∈ pre := (List.mem_filter.mp hy_mem_f).1
          have hy_n : (y.node == n) = true := (List.mem_filter.mp hy_mem_f).2
          have hsm := hpre y hy_mem
          have hy_end : y.isEnd = true := by
            cases hE : y.isEnd with
            | true => rfl
            | false =>
              rw [isStartMatch_no_filter] at hsm
              simp [hE, hy_n] at hsm
          rw [List.filter_append, hfp₀] at halt
          simp only [List.cons_append, List.map_cons] at halt
          obtain ⟨hfalse, -⟩ := isAlt_cons halt
          rw [hy_end] at hfalse
          exact Bool.true_eq_false.mp hfalse
      have hpre_n : ∀ y ∈ pre, (y.node == n) = false := by
        intro y hy
        cases hyn : (y.node == n) with
        | false => rfl
        | true =>
          exfalso
          have : y ∈ pre.filter (fun m => m.node == n) := List.mem_filter.mpr ⟨hy, hyn⟩
          rw [hfp] at this
          exact absurd this (List.not_mem_nil y)
      rw [List.filter_append, hfp, List.nil_append, List.filter_cons, if_pos ho_node,
        List.map_cons, ho_end] at halt
      obtain ⟨-, t₁, ht₁, halt₁⟩ := isAlt_cons halt
      cases hfr : r₁.filter (fun m => m.node == n) with
      | nil => rw [hfr] at ht₁; simp at ht₁
      | cons c cs =>
        rw [hfr, List.map_cons] at ht₁
        injection ht₁ with hc_end ht₂
        obtain ⟨pre₂, suf, rfl, hpre₂, hc_n, hcs⟩ := filter_split hfr
        have hseek₂ : seek (isEndMatch { node := n }) (pre₂ ++ c :: suf) = some (c, suf) := by
          apply seek_append
          · intro y hy
            show (y.isEnd && y.node == n) = false
            simp [hpre₂ y hy]
          · show (c.isEnd && c.node == n) = true
            simp [hc_end, hc_n]
        rw [findNodesGo_cons hseek hseek₂]
        have hfS : (pre ++ o :: (pre₂ ++ c :: suf)).filter (isStartMatch { node := n })
            = o :: suf.filter (isStartMatch { node := n }) := by
          rw [List.filter_append, List.filter_eq_nil_iff.mpr (fun y hy => by
              simp [hpre y hy]),
            List.nil_append, List.filter_cons, if_pos (by
              rw [isStartMatch_no_filter]; simp [ho_end, ho_node]),
            List.filter_append, List.filter_eq_nil_iff.mpr (fun y hy => by
              rw [isStartMatch_no_filter]; simp [hpre₂ y hy]),
            List.nil_append, List.filter_cons, if_neg (by
              rw [isStartMatch_no_filter]; simp [hc_end])]
        have hfE : (pre ++ o :: (pre₂ ++ c :: suf)).filter (isEndMatch { node := n })
            = c :: suf.filter (isEndMatch { node := n }) := by
          rw [List.filter_append, List.filter_eq_nil_iff.mpr (fun y hy => by
              show ¬ (y.isEnd && y.node == n) = true
              simp [hpre_n y hy]),
            List.nil_append, List.filter_cons, if_neg (by
              show ¬ (o.isEnd && o.node == n) = true
              simp [ho_end]),
            List.filter_append, List.filter_eq_nil_iff.mpr (fun y hy => by
              show ¬ (y.isEnd && y.node == n) = true
              simp [hpre₂ y hy]),
            List.nil_append, List.filter_cons, if_pos (by
              show (c.isEnd && c.node == n) = true
              simp [hc_end, hc_n])]
        rw [hfS, hfE, List.zipWith_cons_cons]
        congr 1
        apply ih
        · simp only [List.length_append, List.length_cons] at hlen ⊢
          omega
        · rw [← hcs, ht₂]
          exact halt₁

/-- C3 counterexample: the buffer holds a self-closing occurrence followed
by a paired occurrence of the queried name. Pairing the first open event
(index 9) with the first close event (end offset 9), as the claim states,
would demand the span (9, 9); the shared-stream scan of the source instead
yields the span (9, 27). -/
theorem c3_counterexample :
    (listNodes "<text:p/><text:p>x</text:p>".data 0).map (fun m => (m.isEnd, m.lastIndex))
      = [(true, 9), (false, 17), (true, 27)]
    ∧ (findNodes "<text:p/><text:p>x</text:p>".data { node := "text:p".data }).map
        (fun nd => (nd.index, nd.endIndex)) = [(9, 27)]
    ∧ ¬ ((findNodes "<text:p/><text:p>x</text:p>".data { node := "text:p".data }).map
        (fun nd => (nd.index, nd.endIndex)) = [(9, 9)]) := by
  exact ⟨by decide, by decide, by decide⟩

/-- C3 amended: over every buffer whose name-filtered tag events strictly
alternate open, close (well-formed single-level markup with no self-closing
occurrence of the queried name), findNodes with no attribute filter is
exactly the positional pairing: the k-th open event with the k-th close
event, each node spanning from the open-tag start offset through the
paired close-tag end offset, and the node count is the minimum of the two
occurrence counts. -/
theorem c3_positional_pairing (xml : Str) (n : Str)
    (h : isAlt (((listNodes xml 0).filter (fun m => m.node == n)).map
        (fun m => m.isEnd)) = true) :
    findNodes xml { node := n }
      = List.zipWith (mkNode xml) (findNodeStart (listNodes xml 0) { node := n })
          (findNodeEnd (listNodes xml 0) { node := n })
    ∧ (findNodes xml { node := n }).length
        = min (findNodeStart (listNodes xml 0) { node := n }).length
              (findNodeEnd (listNodes xml 0) { node := n }).length := by
  have hmain := findNodesGo_eq_zipWith xml n ((listNodes xml 0).length + 1)
    (listNodes xml 0) (by omega) h
  refine ⟨hmain, ?_⟩
  have hfz : findNodes xml { node := n }
      = List.zipWith (mkNode xml) (findNodeStart (listNodes xml 0) { node := n })
          (findNodeEnd (listNodes xml 0) { node := n }) := hmain
  rw [hfz, List.length_zipWith]

/-- C3 witness: a two-element well-formed buffer whose events alternate;
the theorem instantiates to it with the hypothesis checked by
computation. -/
theorem c3_positional_pairing_witness :
    isAlt (((listNodes "<text:p>a</text:p><text:p>b</text:p>".data 0).filter
        (fun m => m.node == "text:p".data)).map (fun m => m.isEnd)) = true
    ∧ (findNodes "<text:p>a</text:p><text:p>b</text:p>".data { node := "text:p".data }
        = List.zipWith (mkNode "<text:p>a</text:p><text:p>b</text:p>".data)
            (findNodeStart (listNodes "<text:p>a</text:p><text:p>b</text:p>".data 0)
              { node := "text:p".data })
            (findNodeEnd (listNodes "<text:p>a</text:p><text:p>b</text:p>".data 0)
              { node := "text:p".data })
      ∧ (findNodes "<text:p>a</text:p><text:p>b</text:p>".data
            { node := "text:p".data }).length
          = min (findNodeStart (listNodes "<text:p>a</text:p><text:p>b</text:p>".data 0)
                { node := "text:p".data }).length
              (findNodeEnd (listNodes "<text:p>a</text:p><text:p>b</text:p>".data 0)
                { node := "text:p".data }).length) :=
  ⟨by decide, c3_positional_pairing _ _ (by decide)⟩

/-- One step of the code loop simulates one step of the specification
machine: the states agree up to reading the group as char codes. -/
theorem calcStep_rel (res : List Str) (hyp : Bool) (grp : List Char) (c : Char) :
    calcStep ⟨res, hyp, grp.map Char.toNat⟩ c.toNat
      = ⟨(machineStep (res, hyp, grp) c).1, (machineStep (res, hyp, grp) c).2.1,
         (machineStep (res, hyp, grp) c).2.2.map Char.toNat⟩ := by
  by_cases hc : 65 ≤ c.toNat ∧ c.toNat ≤ 90
  · have hc₂ : 'A' ≤ c ∧ c ≤ 'Z' := hc
    rw [calcStep, machineStep, if_pos hc, if_pos hc₂]
    cases hyp with
    | false => simp
    | true =>
      cases grp with
      | nil => simp
      | cons g gs =>
        simp [stringFactory, Char.ofNat_toNat, Function.comp, ← List.map_reverse,
          List.map_map]
  · have hc₂ : ¬ ('A' ≤ c ∧ c ≤ 'Z') := hc
    rw [calcStep, machineStep, if_neg hc, if_neg hc₂]
    by_cases hm : c.toNat = 45
    · have hm₂ : c = '-' := Char.ext (UInt32.eq_of_val_eq (Fin.ext hm))
      rw [if_pos hm, if_pos hm₂]
    · have hm₂ : c ≠ '-' := fun h => hm (by rw [h]; decide)
      rw [if_neg hm, if_neg hm₂]

/-- The whole loop simulates the whole machine scan. -/
theorem calcFold_rel (cs : List Char) :
    ∀ (res : List Str) (hyp : Bool) (grp : List Char),
      cs.foldl (fun st c => calcStep st c.toNat) ⟨res, hyp, grp.map Char.toNat⟩
        = ⟨(cs.foldl machineStep (res, hyp, grp)).1,
           (cs.foldl machineStep (res, hyp, grp)).2.1,
           (cs.foldl machineStep (res, hyp, grp)).2.2.map Char.toNat⟩ := by
  induction cs with
  | nil => intro res hyp grp; rfl
  | cons c cs ih =>
    intro res hyp grp
    rw [List.foldl_cons, List.foldl_cons, calcStep_rel]
    exact ih (machineStep (res, hyp, grp) c).1 (machineStep (res, hyp, grp) c).2.1
      (machineStep (res, hyp, grp) c).2.2

/-- C5 counterexample: the one-character input consisting of a bare hyphen.
The early return of the source hands it back as is, while the state
machine of the claim (no letter ever arrives, so nothing is emitted)
produces the empty list. -/
theorem c5_counterexample :
    calcColumns "-".data = ["-".data]
    ∧ columnsSpecClaim "-".data = []
    ∧ ¬ (calcColumns "-".data = columnsSpecClaim "-".data) := by
  exact ⟨by decide, by decide, by decide⟩

/-- C5 amended: calcColumns equals the 4.7 state machine amended in one
point: every length-one input denotes itself, a letter or not. The listed
example expansions hold, and a reversed pair emits the empty range. -/
theorem c5_machine_equivalence :
    (∀ s : Str, calcColumns s = columnsSpecAmended s)
    ∧ calcColumns "A-C".data = ["A".data, "B".data, "C".data]
    ∧ calcColumns "E".data = ["E".data]
    ∧ calcColumns "A-BB-E".data
        = ["A".data, "B".data, "B".data, "C".data, "D".data, "E".data]
    ∧ calcColumns "AB".data = ["A".data, "B".data]
    ∧ calcColumns "C-A".data = [] := by
  refine ⟨?_, by decide, by decide, by decide, by decide, by decide⟩
  intro s
  match s with
  | [] => rfl
  | [c] => rfl
  | c₁ :: c₂ :: t =>
    rw [calcColumns, if_neg (by simp)]
    show (let fin := (c₁ :: c₂ :: t).foldl (fun st c => calcStep st c.toNat) ⟨[], false, []⟩
      fin.result ++ fin.group.reverse.map stringFactory) = columnsMachine (c₁ :: c₂ :: t)
    rw [show (⟨[], false, []⟩ : CalcSt)
        = ⟨[], false, ([] : List Char).map Char.toNat⟩ from rfl, calcFold_rel]
    rw [columnsMachine]
    simp only []
    refine congrArg (fun x => _ ++ x) ?_
    rw [← List.map_reverse, List.map_map]
    simp [stringFactory, Char.ofNat_toNat, Function.comp]

/-- C6: the span replacement of the private unsafe method yields exactly
the prefix before the start offset, the replacement, then the suffix from
the end offset; the length changes by the length difference and every
character outside the replaced span is preserved (prefix characters at
their offsets, suffix characters shifted by the length difference). -/
theorem c6_replaceSpan (odtPath s : Str) (i e : Nat) (r : Str)
    (hie : i ≤ e) (hec : e ≤ s.length) :
    (OpenDocumentText.replaceSpan ⟨odtPath, s⟩ i e r).content = s.take i ++ r ++ s.drop e
    ∧ (OpenDocumentText.replaceSpan ⟨odtPath, s⟩ i e r).content.length
        = s.length + r.length - (e - i)
    ∧ (∀ j, j < i →
        ((OpenDocumentText.replaceSpan ⟨odtPath, s⟩ i e r).content)[j]? = s[j]?)
    ∧ (∀ j, e ≤ j → j < s.length →
        ((OpenDocumentText.replaceSpan ⟨odtPath, s⟩ i e r).content)[i + r.length + (j - e)]?
          = s[j]?) := by
  have hi : i ≤ s.length := le_trans hie hec
  have heq : (OpenDocumentText.replaceSpan ⟨odtPath, s⟩ i e r).content
      = s.take i ++ r ++ s.drop e := by
    show jsSubstring s 0 i ++ r ++ jsSubstringFrom s e = _
    rw [jsSubstring, jsSubstringFrom]
    simp [Nat.min_eq_left hi, Nat.min_eq_left hec]
  refine ⟨heq, ?_, ?_, ?_⟩
  · rw [heq]
    simp only [List.length_append, List.length_take, List.length_drop]
    rw [Nat.min_eq_left hi]
    omega
  · intro j hj
    rw [heq, List.getElem?_append,
      if_pos (by simp only [List.length_append, List.length_take]; omega),
      List.getElem?_append,
      if_pos (by simp only [List.length_take]; omega),
      List.getElem?_take, if_pos hj]
  · intro j hej hjc
    rw [heq, List.getElem?_append,
      if_neg (by simp only [List.length_append, List.length_take]; omega)]
    have hidx : i + r.length + (j - e) - (s.take i ++ r).length = j - e := by
      simp only [List.length_append, List.length_take]
      omega
    rw [hidx, List.getElem?_drop]
    have : e + (j - e) = j := by omega
    rw [this]

/-- C6 witness: the theorem at a concrete buffer, span and replacement. -/
theorem c6_replaceSpan_witness :
    (OpenDocumentText.replaceSpan ⟨"f".data, "abcdef".data⟩ 2 4 "XY".data).content
      = ("abcdef".data).take 2 ++ "XY".data ++ ("abcdef".data).drop 4 :=
  (c6_replaceSpan "f".data "abcdef".data 2 4 "XY".data (by decide) (by decide)).1

/-- C7: a missing first node leaves the state untouched (the warning is an
external log effect); with a last-node locator the search runs from the
end offset of the first node on, a failed last search degrades the span to
the first node alone, a successful one extends it through the last node,
and without a last-node locator the first node span is replaced. -/
theorem c7_innerXml :
    (∀ (d : OpenDocumentText) (f : FindNodesOptions) (l : Option FindNodesOptions)
        (inner : Str), findFirstNode d.content f = none → d.innerXml f l inner = d)
    ∧ (∀ (d : OpenDocumentText) (f lo : FindNodesOptions) (inner : Str) (fn : Node),
        findFirstNode d.content f = some fn →
        findLastNode d.content { lo with start := some fn.endIndex } = none →
        d.innerXml f (some lo) inner = d.replaceSpan fn.index fn.endIndex inner)
    ∧ (∀ (d : OpenDocumentText) (f lo : FindNodesOptions) (inner : Str) (fn ln : Node),
        findFirstNode d.content f = some fn →
        findLastNode d.content { lo with start := some fn.endIndex } = some ln →
        d.innerXml f (some lo) inner = d.replaceSpan fn.index ln.endIndex inner)
    ∧ (∀ (d : OpenDocumentText) (f : FindNodesOptions) (inner : Str) (fn : Node),
        findFirstNode d.content f = some fn →
        d.innerXml f none inner = d.replaceSpan fn.index fn.endIndex inner) := by
  refine ⟨?_, ?_, ?_, ?_⟩
  · intro d f l inner h
    simp [OpenDocumentText.innerXml, h]
  · intro d f lo inner fn h₁ h₂
    simp [OpenDocumentText.innerXml, h₁, h₂]
  · intro d f lo inner fn ln h₁ h₂
    simp [OpenDocumentText.innerXml, h₁, h₂]
  · intro d f inner fn h
    simp [OpenDocumentText.innerXml, h]

/-- C7 witness: the not-found no-op on a tagless buffer, the degraded span
and the composite span on concrete buffers. -/
theorem c7_innerXml_witness :
    OpenDocumentText.innerXml ⟨"f".data, "x".data⟩ { node := "text:p".data } none "R".data
      = ⟨"f".data, "x".data⟩
    ∧ OpenDocumentText.innerXml ⟨"f".data, "<text:p>a</text:p>".data⟩
        { node := "text:p".data } (some { node := "text:span".data }) "R".data
      = OpenDocumentText.replaceSpan ⟨"f".data, "<text:p>a</text:p>".data⟩ 0 18 "R".data
    ∧ OpenDocumentText.innerXml ⟨"f".data, "<text:p>a</text:p><text:span>b</text:span>".data⟩
        { node := "text:p".data } (some { node := "text:span".data }) "R".data
      = OpenDocumentText.replaceSpan
          ⟨"f".data, "<text:p>a</text:p><text:span>b</text:span>".data⟩ 0 42 "R".data :=
  ⟨c7_innerXml.1 _ _ _ _ (by decide),
   c7_innerXml.2.1 ⟨"f".data, "<text:p>a</text:p>".data⟩ { node := "text:p".data }
     { node := "text:span".data } "R".data
     ⟨"text:p".data, [], 0, 18, "<text:p>a</text:p>".data⟩ (by decide) (by decide),
   c7_innerXml.2.2.1 ⟨"f".data, "<text:p>a</text:p><text:span>b</text:span>".data⟩
     { node := "text:p".data } { node := "text:span".data } "R".data
     ⟨"text:p".data, [], 0, 18, "<text:p>a</text:p>".data⟩
     ⟨"text:span".data, [], 18, 42, "<text:span>b</text:span>".data⟩
     (by decide) (by decide)⟩

theorem leadsWith_le : ∀ (p s : Str), leadsWith p s = true → p.length ≤ s.length := by
  intro p
  induction p with
  | nil => intro s _; simp
  | cons a ps ih =>
    intro s h
    cases s with
    | nil => simp [leadsWith] at h
    | cons b t =>
      simp only [leadsWith, Bool.and_eq_true] at h
      have := ih t h.2
      simp only [List.length_cons]
      omega

theorem LO_key_len : ∀ e ∈ LO_ENTITIES, 1 ≤ e.1.length := by
  intro e he
  simp only [LO_ENTITIES, List.mem_cons, List.mem_singleton] at he
  rcases he with rfl | rfl | rfl | rfl | rfl | rfl | rfl | h
  all_goals first | decide | simp at h

theorem escGo_nil : ∀ fuel, escGo fuel [] = [] := by
  intro fuel
  cases fuel with
  | zero => rfl
  | succ f => rfl

theorem escGo_congr : ∀ (n : Nat) (s : Str), s.length ≤ n →
    ∀ f₁ f₂, s.length ≤ f₁ → s.length ≤ f₂ → escGo f₁ s = escGo f₂ s := by
  intro n
  induction n with
  | zero =>
    intro s hs f₁ f₂ _ _
    have : s = [] := List.length_eq_zero.mp (by omega)
    subst this
    rw [escGo_nil, escGo_nil]
  | succ n ih =>
    intro s hs f₁ f₂ h₁ h₂
    cases s with
    | nil => rw [escGo_nil, escGo_nil]
    | cons a t =>
      cases f₁ with
      | zero => simp at h₁
      | succ g₁ =>
        cases f₂ with
        | zero => simp at h₂
        | succ g₂ =>
          cases hfind : LO_ENTITIES.find? (fun e => leadsWith e.1 (a :: t)) with
          | some e =>
            have hkey : 1 ≤ e.1.length := LO_key_len e (List.mem_of_find?_eq_some hfind)
            have hlead := List.find?_some hfind
            have hle : e.1.length ≤ (a :: t).length := leadsWith_le e.1 (a :: t) hlead
            rw [show escGo (g₁ + 1) (a :: t)
                = e.2 ++ escGo g₁ ((a :: t).drop e.1.length) from by
              simp [escGo, hfind]]
            rw [show escGo (g₂ + 1) (a :: t)
                = e.2 ++ escGo g₂ ((a :: t).drop e.1.length) from by
              simp [escGo, hfind]]
            congr 1
            refine ih _ ?_ g₁ g₂ ?_ ?_ <;>
              simp only [List.length_drop, List.length_cons] at * <;> omega
          | none =>
            rw [show escGo (g₁ + 1) (a :: t) = a :: escGo g₁ t from by
              simp [escGo, hfind]]
            rw [show escGo (g₂ + 1) (a :: t) = a :: escGo g₂ t from by
              simp [escGo, hfind]]
            congr 1
            refine ih t ?_ g₁ g₂ ?_ ?_ <;>
              simp only [List.length_cons] at * <;> omega

theorem escGo_fuel {f : Nat} {s : Str} (h : s.length ≤ f) :
    escGo f s = escapeLibreOffice s :=
  escGo_congr s.length s le_rfl f s.length h le_rfl

/-- C8: the escaper replaces each reserved character by its entity, each
tab and each pair of consecutive spaces by the tab element, in one
left-to-right non-overlapping greedy pass, copying any other character
unchanged; the example of the specification computes as claimed. -/
theorem c8_escaper :
    escapeLibreOffice "5%\t& <tag>".data = "5%<text:tab />&amp; &lt;tag&gt;".data
    ∧ (∀ t : Str, escapeLibreOffice ('&' :: t) = "&amp;".data ++ escapeLibreOffice t)
    ∧ (∀ t : Str, escapeLibreOffice ('<' :: t) = "&lt;".data ++ escapeLibreOffice t)
    ∧ (∀ t : Str, escapeLibreOffice ('>' :: t) = "&gt;".data ++ escapeLibreOffice t)
    ∧ (∀ t : Str, escapeLibreOffice ('"' :: t) = "&quot;".data ++ escapeLibreOffice t)
    ∧ (∀ t : Str, escapeLibreOffice (Char.ofNat 39 :: t)
        = "&apos;".data ++ escapeLibreOffice t)
    ∧ (∀ t : Str, escapeLibreOffice ('\t' :: t)
        = "<text:tab />".data ++ escapeLibreOffice t)
    ∧ (∀ t : Str, escapeLibreOffice (' ' :: ' ' :: t)
        = "<text:tab />".data ++ escapeLibreOffice t)
    ∧ (∀ (a : Char) (t : Str),
        a ∉ ['&', '<', '>', '"', Char.ofNat 39, '\t'] →
        ¬ (a = ' ' ∧ t.head? = some ' ') →
        escapeLibreOffice (a :: t) = a :: escapeLibreOffice t) := by
  refine ⟨by decide, fun t => rfl, fun t => rfl, fun t => rfl, fun t => rfl,
    fun t => rfl, fun t => rfl, fun t => ?_, fun a t ha hsp => ?_⟩
  · show "<text:tab />".data ++ escGo (t.length + 1) t
      = "<text:tab />".data ++ escapeLibreOffice t
    rw [escGo_fuel (by omega)]
  · simp only [List.mem_cons, List.not_mem_nil, or_false, not_or] at ha
    obtain ⟨h₁, h₂, h₃, h₄, h₅, h₆⟩ := ha
    have hfind : LO_ENTITIES.find? (fun e => leadsWith e.1 (a :: t)) = none := by
      rw [List.find?_eq_none]
      intro e he
      simp only [LO_ENTITIES, List.mem_cons, List.not_mem_nil, or_false] at he
      rcases he with rfl | rfl | rfl | rfl | rfl | rfl | rfl
      · intro h
        simp only [leadsWith, Bool.and_eq_true, beq_iff_eq, and_true] at h
        exact h₁ h.symm
      · intro h
        simp only [leadsWith, Bool.and_eq_true, beq_iff_eq, and_true] at h
        exact h₂ h.symm
      · intro h
        simp only [leadsWith, Bool.and_eq_true, beq_iff_eq, and_true] at h
        exact h₃ h.symm
      · intro h
        simp only [leadsWith, Bool.and_eq_true, beq_iff_eq, and_true] at h
        exact h₄ h.symm
      · intro h
        simp only [leadsWith, Bool.and_eq_true, beq_iff_eq, and_true] at h
        exact h₅ h.symm
      · intro h
        simp only [leadsWith, Bool.and_eq_true, beq_iff_eq, and_true] at h
        exact h₆ h.symm
      · intro h
        simp only [leadsWith, Bool.and_eq_true, beq_iff_eq] at h
        obtain ⟨ha₂, ht⟩ := h
        cases t with
        | nil => simp [leadsWith] at ht
        | cons b t₂ =>
          simp only [leadsWith, Bool.and_eq_true, beq_iff_eq, and_true] at ht
          exact hsp ⟨ha₂.symm, by simp [← ht]⟩
    simp only [escapeLibreOffice, List.length_cons, escGo, hfind]

/-- C8 witness: the copy rule applied to a character that is neither
reserved nor part of a space pair. -/
theorem c8_escaper_witness :
    escapeLibreOffice ('x' :: "y".data) = 'x' :: escapeLibreOffice "y".data :=
  c8_escaper.2.2.2.2.2.2.2.2 'x' "y".data (by decide) (by decide)

theorem intercalate_pair (sep a b : Str) : List.intercalate sep [a, b] = a ++ sep ++ b := by
  simp [List.intercalate, List.intersperse]

/-- C9: newNode drops attributes holding undefined, renders the rest in
record order joined by single spaces as name="value" runs, emits the
self-closing form exactly when content and children are both empty, and
otherwise the open tag, the escaped content, the concatenated children and
the explicit close tag, in that order. -/
theorem c9_newNode :
    (∀ (nm : Str) (pre post : NodeAttributes) (k c : Str) (ch : List Str),
        newNode ⟨nm, pre ++ (k, none) :: post, c, ch⟩ .noArg
          = newNode ⟨nm, pre ++ post, c, ch⟩ .noArg)
    ∧ (∀ (nm k₁ v₁ k₂ v₂ : Str),
        newNode ⟨nm, [(k₁, some v₁), (k₂, some v₂)], [], []⟩ .noArg
          = "<".data ++ nm ++ " ".data ++ k₁ ++ "=\"".data ++ v₁ ++ "\" ".data
            ++ k₂ ++ "=\"".data ++ v₂ ++ "\"".data ++ "/>".data)
    ∧ (∀ (nm : Str) (attrs : NodeAttributes),
        newNode ⟨nm, attrs, [], []⟩ .noArg
          = ('<' :: nm)
            ++ (if (attrRun attrs).length > 0 then ' ' :: attrRun attrs else [])
            ++ "/>".data)
    ∧ (∀ (nm : Str) (attrs : NodeAttributes) (c : Str) (ch : List Str),
        ¬ (c = [] ∧ ch = []) →
        newNode ⟨nm, attrs, c, ch⟩ .noArg
          = ('<' :: nm)
            ++ (if (attrRun attrs).length > 0 then ' ' :: attrRun attrs else [])
            ++ ['>'] ++ escapeLibreOffice c ++ ch.flatten
            ++ "</".data ++ nm ++ ['>'])
    ∧ newNode ⟨"text:p".data, [("text:style-name".data, some "T1".data),
          ("text:cond".data, none)], [], []⟩ .noArg
        = "<text:p text:style-name=\"T1\"/>".data := by
  have hser : ∀ co : CreateNodeOptions, newNode co .noArg = serializeNode co := by
    intro co
    rfl
  refine ⟨?_, ?_, ?_, ?_, by decide⟩
  · intro nm pre post k c ch
    rw [hser, hser]
    simp [serializeNode, attrRun, List.filter_append, List.filter_cons]
  · intro nm k₁ v₁ k₂ v₂
    rw [hser]
    have hrun : attrRun [(k₁, some v₁), (k₂, some v₂)]
        = (k₁ ++ ('=' :: '"' :: v₁) ++ ['"']) ++ " ".data
          ++ (k₂ ++ ('=' :: '"' :: v₂) ++ ['"']) := by
      simp [attrRun, List.filter_cons, intercalate_pair]
    have hpos : 0 < (attrRun [(k₁, some v₁), (k₂, some v₂)]).length := by
      rw [hrun]
      simp only [List.length_append, List.length_cons]
      omega
    simp [serializeNode, hrun, hpos, List.append_assoc]
  · intro nm attrs
    rw [hser]
    by_cases hp : 0 < (attrRun attrs).length
    · simp [serializeNode, hp, List.append_assoc]
    · simp [serializeNode, hp, List.append_assoc]
  · intro nm attrs c ch hne
    rw [hser]
    have hcond : ¬ (c.length = 0 ∧ ch.length = 0) := by
      simpa [List.length_eq_zero] using hne
    by_cases hp : 0 < (attrRun attrs).length
    · simp [serializeNode, hp, hcond, List.append_assoc]
      exact fun hc hch => hne ⟨hc, hch⟩
    · simp [serializeNode, hp, hcond, List.append_assoc]
      exact fun hc hch => hne ⟨hc, hch⟩

/-- C9 witness: the non-empty-content rule at a concrete element. -/
theorem c9_newNode_witness :
    newNode ⟨"text:p".data, [], "a".data, []⟩ .noArg
      = ('<' :: "text:p".data)
        ++ (if (attrRun []).length > 0 then ' ' :: attrRun [] else [])
        ++ ['>'] ++ escapeLibreOffice "a".data ++ ([] : List Str).flatten
        ++ "</".data ++ "text:p".data ++ ['>'] :=
  c9_newNode.2.2.2.1 "text:p".data [] "a".data [] (by simp)

/-- C10: clone copies both fields, so the clone serializes identically and,
instances being immutable values of the embedding (the source reassigns a
private string field, never sharing mutable state between instances), the
mutators run on the clone exactly as on the original while the original
value is untouched by construction. -/
theorem c10_clone_independent :
    ∀ (d : OpenDocumentText) (n v : Str) (f : FindNodesOptions)
      (l : Option FindNodesOptions) (inner : Str),
      (d.clone).toJson = d.toJson
      ∧ d.clone = d
      ∧ (d.clone).injectVar n v = d.injectVar n v
      ∧ (d.clone).innerXml f l inner = d.innerXml f l inner := by
  intro d n v f l inner
  exact ⟨rfl, rfl, rfl, rfl⟩

end Odt
